import Mathlib

/-!
Verification of the xxljob execution-side runtime (go-anyway/framework-xxljob).

Shallow embedding of the task execution pipeline: the middleware chain and its
built-in interceptors (src/middleware.go), the trace/result wrapper around each
invocation (src/trace.go), the executor's last-error bookkeeping and health
snapshot (executor implementation), and the paginated log reader (src/log.go).

Go `error` values are modelled by their `Error()` message string; a Go function
returning `error` is modelled as returning `Option GoError` (`none` = nil).
Machine integers (`int`, `int64`) are modelled as `Int`; none of the verified
paths can overflow on the inputs considered.
-/

namespace XxlJob

/-- A Go error value, identified with its `Error()` message string. -/
abbrev GoError := String

/-! ## Middleware chain (src/middleware.go, `Chain` / `applyMiddlewares`)

`Chain` never inspects the handlers it composes: it only applies the middleware
functions, so the handler type is kept abstract here. The Go loop
`for i := len(middlewares) - 1; i >= 0; i-- { next = middlewares[i](next) }`
is embedded as structural recursion producing the same nesting
`m[0] (m[1] (... m[n-1] next))`. -/

/-- The descending loop inside `Chain`: starting from `next`, applies the
middlewares from the last index down to index 0. -/
def chainLoop {H : Type} : List (H → H) → H → H
  | [], next => next
  | m :: rest, next => m (chainLoop rest next)

/-- `Chain(middlewares...)` from src/middleware.go. -/
def Chain {H : Type} (middlewares : List (H → H)) : H → H :=
  fun next => chainLoop middlewares next

/-- `applyMiddlewares(handler, middlewares)` from src/middleware.go:
returns the handler untouched when the list is empty, otherwise applies
the chain built from the full list. -/
def applyMiddlewares {H : Type} (handler : H) (middlewares : List (H → H)) : H :=
  match middlewares with
  | [] => handler
  | _ :: _ => Chain middlewares handler

/-! ## Recovery middleware (src/middleware.go, `RecoveryMiddleware`)

Panics have no counterpart in a value-level embedding, so a handler body is
modelled as returning an `ExecOutcome`: either a normal return (with an
optional error) or a panic escaping with some Go value. The deferred
`recover()` block type-switches the recovered value: an `error` value is
returned as-is, any other value is wrapped in `panicError`, whose `Error()`
renders as `"panic: <value>"`. -/

/-- A Go value thrown by `panic`: either an `error` value, or any other value
(identified with its `fmt` rendering). -/
inductive PanicValue where
  | err (e : GoError)
  | other (rendered : String)
deriving DecidableEq, Repr

/-- Outcome of running a handler body: a normal return, or a panic escaping. -/
inductive ExecOutcome where
  | normal (err : Option GoError)
  | panicked (v : PanicValue)
deriving DecidableEq, Repr

/-- The error produced by the `recover()` block of `RecoveryMiddleware` for a
recovered value: the value itself when it is an `error`, otherwise
`panicError{value: r}` whose message is `"panic: <value>"`. -/
def recoveredError (v : PanicValue) : GoError :=
  match v with
  | .err e => e
  | .other rendered => "panic: " ++ rendered

/-- `RecoveryMiddleware()` from src/middleware.go, applied to a handler body:
a panic is caught and converted to a normal error return; normal returns pass
through unchanged. -/
def RecoveryMiddleware (next : String → ExecOutcome) : String → ExecOutcome :=
  fun param =>
    match next param with
    | .normal err => .normal err
    | .panicked v => .normal (some (recoveredError v))

/-! ## Trace wrapper (src/trace.go, `executeTaskWithTrace`)

The span, metrics and log-line side effects do not influence the returned
pair, which depends only on the handler's error: the function returns
`("FAIL: " ++ err.Error(), nil)` on a handler error and `("SUCCESS", nil)`
otherwise — the final statement is `return result, nil`. -/

/-- `executeTaskWithTrace` from src/trace.go, restricted to its returned
`(result, err)` pair. The handler is modelled as a function of the parameter
string (the context only carries cross-cutting state that the returned pair
does not depend on). -/
def executeTaskWithTrace (taskName param : String) (logID : Int)
    (handler : String → Option GoError) (enableTrace : Bool) :
    String × Option GoError :=
  match handler param with
  | some e => ("FAIL: " ++ e, none)
  | none => ("SUCCESS", none)

/-! ## Executor last-error bookkeeping and health snapshot -/

/-- The mutable fields of `executorImpl` relevant to health inspection. -/
structure ExecutorState where
  running : Bool
  taskCount : Nat
  startedAt : Int
  lastError : Option GoError
deriving DecidableEq, Repr

/-- `HealthStatus` as defined next to the `Executor` interface. -/
structure HealthStatus where
  Running : Bool
  TaskCount : Nat
  StartedAt : Int
  LastError : Option GoError
deriving DecidableEq, Repr

/-- `executorImpl.GetHealthStatus`: a snapshot of the executor's fields. -/
def GetHealthStatus (e : ExecutorState) : HealthStatus :=
  { Running := e.running
    TaskCount := e.taskCount
    StartedAt := e.startedAt
    LastError := e.lastError }

/-- One run of the SDK callback installed by `executorImpl.RegTask`: it calls
`executeTaskWithTrace` on the wrapped handler and then, if the returned `err`
is non-nil, stores it in `lastError`; the textual result is handed back to the
SDK. -/
def regTaskCallbackRun (e : ExecutorState) (taskName paramStr : String)
    (logID : Int) (wrappedHandler : String → Option GoError)
    (enableTrace : Bool) : String × ExecutorState :=
  let r := executeTaskWithTrace taskName paramStr logID wrappedHandler enableTrace
  match r.2 with
  | some _ => (r.1, { e with lastError := r.2 })
  | none => (r.1, e)

/-! ## Paginated log reader (src/log.go, `readLogFileWithPagination`)

A log file is modelled by the list of lines that `bufio.Scanner` (with the
default `ScanLines` split) produces from it, together with its byte size,
which the Go code consults separately via `os.Stat`. The two are only tied by
the fact that a file has zero lines exactly when it has zero bytes; theorems
carry that as the hypothesis `FileLinesConsistent`. -/

/-- `defaultLogPageSize` from src/log.go. -/
def defaultLogPageSize : Int := 1000

/-- `maxLogFileSize` from src/log.go (10 MiB). -/
def maxLogFileSize : Int := 10 * 1024 * 1024

/-- `logReadResult` from src/log.go. -/
structure LogReadResult where
  Content : String
  ToLineNum : Int
  IsEnd : Bool
deriving DecidableEq, Repr

/-- The mutable state of the scan loop in `readLogFileWithPagination`:
the collected lines, the index of the line most recently scanned
(`lineIndex`, starting at -1), and the running `toLineNum`. -/
structure ScanState where
  lines : List String
  lineIndex : Int
  toLineNum : Int
deriving DecidableEq, Repr

/-- The `for scanner.Scan()` loop of `readLogFileWithPagination`: advances
`lineIndex` for each line, skips lines below `startLineIndex`, collects the
rest while updating `toLineNum`, and stops once `pageSize` lines are
collected. -/
def scanLines (startLineIndex pageSize : Int) :
    List String → ScanState → ScanState
  | [], st => st
  | l :: rest, st =>
    let lineIndex := st.lineIndex + 1
    if lineIndex < startLineIndex then
      scanLines startLineIndex pageSize rest { st with lineIndex := lineIndex }
    else
      let collected := st.lines ++ [l]
      let st2 : ScanState :=
        { lines := collected, lineIndex := lineIndex, toLineNum := lineIndex }
      if (collected.length : Int) ≥ pageSize then st2
      else scanLines startLineIndex pageSize rest st2

/-- `readLogFileWithPagination` from src/log.go, on a file that exists and
scans without I/O error (the error paths depend only on the filesystem, not
on the pagination logic). -/
def readLogFileWithPagination (fileLines : List String) (fileSize : Int)
    (fromLineNum pageSize : Int) : LogReadResult :=
  if fileSize = 0 then
    { Content := ""
      ToLineNum := if fromLineNum < 0 then 0 else fromLineNum
      IsEnd := true }
  else
    let forcePagination := fileSize > maxLogFileSize
    let pageSize1 := if forcePagination ∧ pageSize ≤ 0 then defaultLogPageSize else pageSize
    let pageSize2 := if pageSize1 ≤ 0 then defaultLogPageSize else pageSize1
    let startLineIndex := if fromLineNum < 0 then 0 else fromLineNum
    let st := scanLines startLineIndex pageSize2 fileLines
        { lines := [], lineIndex := -1, toLineNum := startLineIndex }
    let isEnd := (st.lines.length : Int) < pageSize2
    if startLineIndex > st.lineIndex then
      { Content := ""
        ToLineNum := if st.lineIndex < 0 then 0 else st.lineIndex
        IsEnd := true }
    else
      { Content := String.intercalate "\n" st.lines
          ++ (if st.lines.length > 0 then "\n" else "")
        ToLineNum := st.toLineNum
        IsEnd := isEnd }

/-- Ties a file's scanned lines to its byte size: the size is non-negative,
and the file has zero bytes exactly when it scans to zero lines. -/
def FileLinesConsistent (fileLines : List String) (fileSize : Int) : Prop :=
  0 ≤ fileSize ∧ (fileSize = 0 ↔ fileLines = [])

/-! ## Retry middleware (src/middleware.go, `RetryMiddleware`)

The loop `for i := 0; i <= maxRetries; i++` is embedded with a fuel argument
`remaining` (the number of iterations the loop may still run, starting at
`maxRetries + 1`). The handler and the two observations of `ctx.Err()` per
iteration — one in the `select` guarding the wait (iterations `i ≥ 1` only),
one after the attempt — are indexed by the iteration number `i`, which is also
the number of the attempt made in that iteration. The backoff durations
actually waited are recorded in order; `backoff *= 2` happens after each wait,
exactly as in the source. `time.Duration` arithmetic is modelled on `Int`
(the claims involve no overflow). -/

/-- The observable outcome of one `RetryMiddleware` run: the error returned to
the caller, the number of handler invocations, and the waits performed. -/
structure RetryOutcome where
  result : Option GoError
  calls : Nat
  waits : List Int
deriving DecidableEq, Repr

/-- A context that is never cancelled: `ctx.Err()` is nil at every
observation point. -/
def noCancel : Nat → Option GoError := fun _ => none

/-- The loop body of `RetryMiddleware`: iteration `i` with `remaining + 1`
iterations allowed first (for `i ≥ 1`) consults `ctx.Err()` in the `select`
(returning it if the context is done, otherwise waiting `backoff` and
doubling it), then makes attempt `i`; a nil attempt error returns nil at
once, otherwise the attempt's error becomes `lastErr`, `ctx.Err()` is checked
again (returned if non-nil), and the loop continues; an exhausted loop
returns `lastErr`. -/
def retryGo (next ctxAtWait ctxAfter : Nat → Option GoError) :
    Nat → Nat → Int → Option GoError → Nat → List Int → RetryOutcome
  | 0, _i, _backoff, lastErr, calls, waits =>
    { result := lastErr, calls := calls, waits := waits }
  | remaining + 1, i, backoff, lastErr, calls, waits =>
    if 0 < i then
      match ctxAtWait i with
      | some cerr => { result := some cerr, calls := calls, waits := waits }
      | none =>
        match next i with
        | none => { result := none, calls := calls + 1, waits := waits ++ [backoff] }
        | some e =>
          match ctxAfter i with
          | some cerr =>
            { result := some cerr, calls := calls + 1, waits := waits ++ [backoff] }
          | none =>
            retryGo next ctxAtWait ctxAfter remaining (i + 1) (backoff * 2)
              (some e) (calls + 1) (waits ++ [backoff])
    else
      match next i with
      | none => { result := none, calls := calls + 1, waits := waits }
      | some e =>
        match ctxAfter i with
        | some cerr => { result := some cerr, calls := calls + 1, waits := waits }
        | none =>
          retryGo next ctxAtWait ctxAfter remaining (i + 1) backoff
            (some e) (calls + 1) waits

/-- `RetryMiddleware(maxRetries, backoff)` from src/middleware.go, applied to
a handler and run to completion: `lastErr` starts nil, so a negative
`maxRetries` returns nil without invoking the handler. -/
def RetryMiddleware (maxRetries backoff : Int)
    (next ctxAtWait ctxAfter : Nat → Option GoError) : RetryOutcome :=
  retryGo next ctxAtWait ctxAfter (maxRetries + 1).toNat 0 backoff none 0 []

end XxlJob

namespace XxlJob

theorem chainLoop_foldr {H : Type} (middlewares : List (H → H)) (next : H) :
    chainLoop middlewares next = middlewares.foldr (fun m acc => m acc) next := by
  induction middlewares with
  | nil => rfl
  | cons m rest ih => simp [chainLoop, ih]

/-! ### Characterizing the scan loop -/

/-- Skip phase: as long as the next `n` lines all have index below
`startLineIndex`, the loop just drops them while advancing `lineIndex`. -/
theorem scanLines_skip (s p : Int) :
    ∀ (n : Nat) (l : List String) (st : ScanState), n ≤ l.length →
      st.lineIndex + n < s →
      scanLines s p l st
        = scanLines s p (l.drop n) { st with lineIndex := st.lineIndex + n } := by
  intro n
  induction n with
  | zero => intro l st _ _; simp
  | succ m ih =>
    intro l st hlen hidx
    match l with
    | [] => simp at hlen
    | x :: rest =>
      have hcond : st.lineIndex + 1 < s := by push_cast at hidx; omega
      rw [scanLines]
      simp only [if_pos hcond]
      have h1 : m ≤ rest.length := by simpa using hlen
      have h2 : ({ st with lineIndex := st.lineIndex + 1 } : ScanState).lineIndex + m < s := by
        push_cast at hidx ⊢; omega
      rw [ih rest { st with lineIndex := st.lineIndex + 1 } h1 h2]
      simp only [List.drop_succ_cons]
      congr 1
      push_cast
      ring

/-- Collect phase: once `lineIndex + 1` has reached `startLineIndex`, the loop
collects lines until the page is full or the file ends. -/
theorem scanLines_collect (s p : Int) :
    ∀ (l : List String) (st : ScanState), s ≤ st.lineIndex + 1 →
      (st.lines.length : Int) < p →
      scanLines s p l st =
        { lines := st.lines ++ l.take (p - st.lines.length).toNat
          lineIndex :=
            st.lineIndex + (min (p - (st.lines.length : Int)).toNat l.length : Nat)
          toLineNum :=
            if l.isEmpty then st.toLineNum
            else st.lineIndex + (min (p - (st.lines.length : Int)).toNat l.length : Nat) } := by
  intro l
  induction l with
  | nil => intro st _ _; simp [scanLines]
  | cons x rest ih =>
    intro st hs hlt
    have hcond : ¬ (st.lineIndex + 1 < s) := by omega
    rw [scanLines]
    simp only [if_neg hcond]
    by_cases hbreak : ((st.lines ++ [x]).length : Int) ≥ p
    · have hq : (p - (st.lines.length : Int)).toNat = 1 := by
        simp only [List.length_append, List.length_singleton] at hbreak
        push_cast at hbreak
        omega
      rw [if_pos hbreak]
      simp [hq, Nat.succ_min_succ]
    · rw [if_neg hbreak]
      have hlt2 : ((st.lines ++ [x]).length : Int) < p := by omega
      have hs2 : s ≤ (st.lineIndex + 1) + 1 := by omega
      rw [ih { lines := st.lines ++ [x], lineIndex := st.lineIndex + 1,
               toLineNum := st.lineIndex + 1 } hs2 hlt2]
      have hq : (p - (st.lines.length : Int)).toNat
          = (p - ((st.lines ++ [x]).length : Int)).toNat + 1 := by
        simp only [List.length_append, List.length_singleton] at hlt2 ⊢
        push_cast at hlt2 ⊢
        omega
      rw [hq]
      simp only [List.length_append, List.length_singleton, List.take_succ_cons,
        List.append_assoc, List.singleton_append, List.isEmpty_cons,
        ScanState.mk.injEq, List.length_cons, Nat.succ_min_succ]
      refine ⟨trivial, by push_cast; ring_nf, ?_⟩
      cases rest with
      | nil => simp
      | cons y t =>
        simp only [List.isEmpty_cons, Bool.false_eq_true, if_false, List.length_cons,
          Nat.succ_min_succ]
        push_cast
        ring_nf

/-- Full scan starting at index `s ≤ length`: skips the first `s` lines, then
collects up to `pageSize` of the rest. -/
theorem scanLines_run_le (L : List String) (s : Nat) (p : Int)
    (hp : 1 ≤ p) (hs : s ≤ L.length) :
    scanLines (s : Int) p L { lines := [], lineIndex := -1, toLineNum := (s : Int) } =
      { lines := (L.drop s).take p.toNat
        lineIndex := (s : Int) + ((min p.toNat (L.length - s) : Nat) : Int) - 1
        toLineNum :=
          if L.length = s then (s : Int)
          else (s : Int) + ((min p.toNat (L.length - s) : Nat) : Int) - 1 } := by
  rw [scanLines_skip (s : Int) p s L _ hs (by push_cast; omega)]
  rw [scanLines_collect (s : Int) p (L.drop s)
    { lines := [], lineIndex := -1 + (s : Int), toLineNum := (s : Int) }
    (by simp) (by simp; omega)]
  simp only [List.length_nil, Nat.cast_zero, sub_zero, List.nil_append,
    List.length_drop, List.isEmpty_iff, List.drop_eq_nil_iff, ScanState.mk.injEq]
  refine ⟨trivial, ?_, ?_⟩
  · generalize p.toNat ⊓ (L.length - s) = m
    push_cast
    ring
  · by_cases hLs : L.length ≤ s
    · have hEq : L.length = s := le_antisymm hLs hs
      simp [hLs, hEq]
    · have h1 : ¬ L.length = s := fun h => hLs (le_of_eq h)
      simp only [if_neg hLs, if_neg h1]
      generalize p.toNat ⊓ (L.length - s) = m
      push_cast
      ring

/-- Full scan starting beyond the last line: everything is skipped. -/
theorem scanLines_run_gt (L : List String) (s : Nat) (p : Int)
    (hs : L.length < s) :
    scanLines (s : Int) p L { lines := [], lineIndex := -1, toLineNum := (s : Int) } =
      { lines := [], lineIndex := (L.length : Int) - 1, toLineNum := (s : Int) } := by
  rw [scanLines_skip (s : Int) p L.length L _ le_rfl (by push_cast; omega)]
  simp [scanLines]
  omega

/-- Master characterization of `readLogFileWithPagination` for a positive
page size on a consistent file: the empty file returns `max fromLineNum 0`;
a start index at or past the end returns the last line index; otherwise the
page is `take pageSize` of `drop start`, with `isEnd` exactly when the page
ran short. -/
theorem readLogFileWithPagination_eq (L : List String) (size frm psz : Int)
    (hc : FileLinesConsistent L size) (hp : 1 ≤ psz) :
    readLogFileWithPagination L size frm psz =
      if L = [] then { Content := "", ToLineNum := max frm 0, IsEnd := true }
      else if L.length ≤ (max frm 0).toNat then
        { Content := "", ToLineNum := (L.length : Int) - 1, IsEnd := true }
      else
        { Content :=
            String.intercalate "\n" ((L.drop (max frm 0).toNat).take psz.toNat) ++ "\n"
          ToLineNum := ((max frm 0).toNat : Int)
            + (((L.drop (max frm 0).toNat).take psz.toNat).length : Int) - 1
          IsEnd := decide
            ((((L.drop (max frm 0).toNat).take psz.toNat).length : Int) < psz) } := by
  obtain ⟨hnn, hiff⟩ := hc
  unfold readLogFileWithPagination
  by_cases hz : size = 0
  · rw [if_pos hz, if_pos (hiff.mp hz)]
    congr 1
    omega
  · rw [if_neg hz, if_neg (fun h => hz (hiff.mpr h))]
    have hps1 : ¬ (size > maxLogFileSize ∧ psz ≤ 0) := fun h => by omega
    have hps2 : ¬ (psz ≤ 0) := by omega
    simp only [if_neg hps1, if_neg hps2]
    have hL : L ≠ [] := fun h => hz (hiff.mpr h)
    set s : Nat := (max frm 0).toNat with hsdef
    have hfs : (if frm < 0 then 0 else frm) = (s : Int) := by omega
    rw [hfs]
    have hlen1 : 1 ≤ L.length := by
      cases L with
      | nil => exact absurd rfl hL
      | cons a t => simp
    by_cases hle : L.length ≤ s
    · rw [if_pos hle]
      rcases Nat.lt_or_ge L.length s with hlt | hge
      · rw [scanLines_run_gt L s psz hlt]
        dsimp only
        have hcond : (s : Int) > (L.length : Int) - 1 := by omega
        rw [if_pos hcond]
        congr 1
        split_ifs <;> omega
      · have hEq : L.length = s := le_antisymm hle hge
        rw [scanLines_run_le L s psz hp hge]
        dsimp only
        have hmin : psz.toNat ⊓ (L.length - s) = 0 := by
          rw [hEq, Nat.sub_self, Nat.min_zero]
        have hcond : (s : Int) > (s : Int) + ((psz.toNat ⊓ (L.length - s) : Nat) : Int) - 1 := by
          rw [hmin]; push_cast; omega
        rw [if_pos hcond]
        congr 1
        rw [hmin]
        push_cast
        split_ifs <;> omega
    · rw [if_neg hle]
      have hge : s ≤ L.length := le_of_not_le hle
      rw [scanLines_run_le L s psz hp hge]
      dsimp only
      have hne : ¬ L.length = s := fun h => hle (le_of_eq h)
      rw [if_neg hne]
      have hmin1 : 1 ≤ psz.toNat ⊓ (L.length - s) := by
        have h1 : 1 ≤ psz.toNat := by omega
        have h2 : 1 ≤ L.length - s := by omega
        exact le_min h1 h2
      have hlen : ((L.drop s).take psz.toNat).length = psz.toNat ⊓ (L.length - s) := by
        simp [List.length_take, List.length_drop]
      have hcond : ¬ ((s : Int) > (s : Int) + ((psz.toNat ⊓ (L.length - s) : Nat) : Int) - 1) := by
        have := hmin1
        push_cast
        omega
      rw [if_neg hcond]
      have hlpos : ((L.drop s).take psz.toNat).length > 0 := by
        rw [hlen]; exact hmin1
      rw [if_pos hlpos]
      simp only [hlen]

/-- A page size of zero or less is replaced by the default page size, whether
or not the file is above the size threshold. -/
theorem readLog_nonpos_pageSize (L : List String) (size frm psz : Int)
    (hpsz : psz ≤ 0) :
    readLogFileWithPagination L size frm psz
      = readLogFileWithPagination L size frm defaultLogPageSize := by
  unfold readLogFileWithPagination
  by_cases hz : size = 0
  · rw [if_pos hz, if_pos hz]
  · rw [if_neg hz, if_neg hz]
    by_cases hbig : size > maxLogFileSize
    · simp [hbig, hpsz, defaultLogPageSize]
    · simp [hbig, hpsz, defaultLogPageSize]

/-- For a positive page size, the file's byte size plays no role beyond being
non-zero: a file above the forced-pagination threshold is read exactly like a
small file with the same lines. -/
theorem readLog_size_irrelevant_pos (L : List String) (size1 size2 frm psz : Int)
    (h1 : size1 ≠ 0) (h2 : size2 ≠ 0) (hp : 1 ≤ psz) :
    readLogFileWithPagination L size1 frm psz
      = readLogFileWithPagination L size2 frm psz := by
  unfold readLogFileWithPagination
  have hps : ¬ (psz ≤ 0) := by omega
  rw [if_neg h1, if_neg h2]
  simp [hps]

/-- C2 (amended): for a consistent non-empty file with `N` lines and
`pageSize ≥ N`, reading from line 0 returns all `N` lines (newline-terminated),
`toLineNum = N - 1`, and `isEnd = (N < pageSize)` — true when `pageSize`
strictly exceeds `N`, but false in the boundary case `pageSize = N`. -/
theorem readLog_full_read (L : List String) (size psz : Int)
    (hc : FileLinesConsistent L size) (hL : L ≠ [])
    (hp : (L.length : Int) ≤ psz) :
    readLogFileWithPagination L size 0 psz =
      { Content := String.intercalate "\n" L ++ "\n"
        ToLineNum := (L.length : Int) - 1
        IsEnd := decide ((L.length : Int) < psz) } := by
  have hlen1 : 0 < L.length := List.length_pos.mpr hL
  have hp1 : 1 ≤ psz := by omega
  rw [readLogFileWithPagination_eq L size 0 psz hc hp1]
  rw [if_neg hL]
  have hs0 : (max (0 : Int) 0).toNat = 0 := by norm_num
  rw [hs0]
  rw [if_neg (show ¬ (L.length ≤ 0) by omega)]
  simp only [List.drop_zero]
  have htake : L.take psz.toNat = L := List.take_of_length_le (by omega)
  simp [htake]

/-- Witness for C2 (amended) at a concrete 2-line file with page size 3. -/
theorem readLog_full_read_witness :
    readLogFileWithPagination ["a", "b"] 4 0 3
      = { Content := "a\nb\n", ToLineNum := 1, IsEnd := true } := by
  have h := readLog_full_read ["a", "b"] 4 3
    ⟨by norm_num, by simp⟩ (by simp) (by simp)
  simpa using h

/-- C3: for a consistent file, reading `p ≥ 1` lines from index `k` with
`k + p < N` returns exactly the `p` lines at indices `k … k+p-1`
(newline-terminated), `toLineNum = k + p - 1` and `isEnd = false`; and in
general, for any start line and positive page size, `isEnd` holds exactly when
fewer than `pageSize` lines were collected. -/
theorem readLog_middle_page (L : List String) (size : Int) (k p : Nat)
    (hc : FileLinesConsistent L size) (hp : 1 ≤ p) (hkp : k + p < L.length) :
    (readLogFileWithPagination L size (k : Int) (p : Int)).Content
        = String.intercalate "\n" ((L.drop k).take p) ++ "\n" ∧
    ((L.drop k).take p).length = p ∧
    (readLogFileWithPagination L size (k : Int) (p : Int)).ToLineNum
        = (k : Int) + (p : Int) - 1 ∧
    (readLogFileWithPagination L size (k : Int) (p : Int)).IsEnd = false ∧
    (∀ frm psz : Int, 1 ≤ psz →
      (readLogFileWithPagination L size frm psz).IsEnd
        = decide ((((L.drop (max frm 0).toNat).take psz.toNat).length : Int) < psz)) := by
  have hgen : ∀ frm psz : Int, 1 ≤ psz →
      (readLogFileWithPagination L size frm psz).IsEnd
        = decide ((((L.drop (max frm 0).toNat).take psz.toNat).length : Int) < psz) := by
    intro frm psz hpsz
    rw [readLogFileWithPagination_eq L size frm psz hc hpsz]
    by_cases hnil : L = []
    · subst hnil
      simp only [if_pos rfl]
      simp [show (0 : Int) < psz by omega]
    · rw [if_neg hnil]
      by_cases hle : L.length ≤ (max frm 0).toNat
      · rw [if_pos hle]
        have hdrop : L.drop (max frm 0).toNat = [] := List.drop_eq_nil_iff.mpr hle
        simp [hdrop, show (0 : Int) < psz by omega]
      · rw [if_neg hle]
  have hpz : 1 ≤ (p : Int) := by omega
  have hknn : (max ((k : Nat) : Int) 0).toNat = k := by omega
  have hlen : ((L.drop k).take p).length = p := by
    simp only [List.length_take, List.length_drop]
    omega
  have hmain := readLogFileWithPagination_eq L size (k : Int) (p : Int) hc hpz
  rw [hknn] at hmain
  have hnil : L ≠ [] := by
    intro h
    rw [h] at hkp
    simp at hkp
  rw [if_neg hnil, if_neg (show ¬ (L.length ≤ k) by omega)] at hmain
  have htn : ((p : Int)).toNat = p := by omega
  rw [htn] at hmain
  rw [hmain]
  refine ⟨rfl, hlen, ?_, ?_, hgen⟩
  · rw [hlen]
  · rw [hlen]
    simp

/-- Witness for C3 at a concrete 4-line file, reading 2 lines from index 1. -/
theorem readLog_middle_page_witness :
    (readLogFileWithPagination ["a", "b", "c", "d"] 8 1 2).Content = "b\nc\n" ∧
    (readLogFileWithPagination ["a", "b", "c", "d"] 8 1 2).ToLineNum = 2 ∧
    (readLogFileWithPagination ["a", "b", "c", "d"] 8 1 2).IsEnd = false := by
  have h := readLog_middle_page ["a", "b", "c", "d"] 8 1 2
    ⟨by norm_num, by simp⟩ (by norm_num) (by norm_num)
  obtain ⟨h1, _, h3, h4, _⟩ := h
  refine ⟨?_, ?_, ?_⟩
  · simpa using h1
  · simpa using h3
  · simpa using h4

/-- C4: for a consistent file, reading from a start line at or past the end of
a non-empty file returns empty content, `isEnd = true` and
`toLineNum = N - 1`; reading an empty file returns empty content,
`isEnd = true` and `toLineNum = max(fromLineNum, 0)` — for any page size. -/
theorem readLog_from_beyond_end (L : List String) (size frm psz : Int)
    (hc : FileLinesConsistent L size) :
    (L ≠ [] → (L.length : Int) ≤ frm →
      readLogFileWithPagination L size frm psz
        = { Content := "", ToLineNum := (L.length : Int) - 1, IsEnd := true }) ∧
    (L = [] →
      readLogFileWithPagination L size frm psz
        = { Content := "", ToLineNum := max frm 0, IsEnd := true }) := by
  have key : ∀ psz2 : Int, 1 ≤ psz2 →
      (L ≠ [] → (L.length : Int) ≤ frm →
        readLogFileWithPagination L size frm psz2
          = { Content := "", ToLineNum := (L.length : Int) - 1, IsEnd := true }) ∧
      (L = [] →
        readLogFileWithPagination L size frm psz2
          = { Content := "", ToLineNum := max frm 0, IsEnd := true }) := by
    intro psz2 hp1
    rw [readLogFileWithPagination_eq L size frm psz2 hc hp1]
    constructor
    · intro hL hfrm
      rw [if_neg hL]
      have hlen1 : 0 < L.length := List.length_pos.mpr hL
      rw [if_pos (show L.length ≤ (max frm 0).toNat by omega)]
    · intro hnil
      rw [if_pos hnil]
  rcases le_or_lt psz 0 with hpsz | hpsz
  · rw [readLog_nonpos_pageSize L size frm psz hpsz]
    exact key defaultLogPageSize (by norm_num [defaultLogPageSize])
  · exact key psz (by omega)

/-- Witness for C4 at a concrete 1-line file read from line 5, and at an
empty file read from line -4. -/
theorem readLog_from_beyond_end_witness :
    readLogFileWithPagination ["a"] 2 5 3
      = { Content := "", ToLineNum := 0, IsEnd := true } ∧
    readLogFileWithPagination [] 0 (-4) 2
      = { Content := "", ToLineNum := 0, IsEnd := true } := by
  constructor
  · have h := (readLog_from_beyond_end ["a"] 2 5 3
      ⟨by norm_num, by simp⟩).1 (by simp) (by simp)
    simpa using h
  · have h := (readLog_from_beyond_end [] 0 (-4) 2
      ⟨by norm_num, by simp⟩).2 rfl
    simpa using h

/-- C2 counterexample: a consistent 1-line file (`N = 1`) read with
`fromLineNum = 0` and `pageSize = 1 = N` returns all lines and
`toLineNum = N - 1`, but `isEnd = false`, refuting the claim that
`pageSize ≥ N` (including `pageSize = N`) yields `isEnd = true`. -/
theorem readLog_boundary_page_not_end :
    FileLinesConsistent ["a"] 2 ∧
    (List.length ["a"] : Int) ≤ 1 ∧
    readLogFileWithPagination ["a"] 2 0 1
      = { Content := "a\n", ToLineNum := 0, IsEnd := false } := by
  refine ⟨⟨by norm_num, by simp⟩, by simp, ?_⟩
  rfl

/-- C9 counterexample: on a consistent file above the size threshold, an
explicit `pageSize = 1001` (larger than the default 1000) is honoured: the
returned page covers lines 0 … 1000, i.e. 1001 lines — more than the default
page size, which is therefore not a hard cap. -/
theorem readLog_default_not_hard_cap :
    maxLogFileSize < maxLogFileSize + 1 ∧
    FileLinesConsistent (List.replicate 1001 "x") (maxLogFileSize + 1) ∧
    defaultLogPageSize = 1000 ∧
    (readLogFileWithPagination (List.replicate 1001 "x") (maxLogFileSize + 1) 0
        1001).ToLineNum = 1000 := by
  have hlenrep : (List.replicate 1001 "x").length = 1001 :=
    List.length_replicate 1001 "x"
  have hne : List.replicate 1001 "x" ≠ ([] : List String) := by
    intro h
    rw [h] at hlenrep
    norm_num at hlenrep
  have hc : FileLinesConsistent (List.replicate 1001 "x") (maxLogFileSize + 1) := by
    constructor
    · norm_num [maxLogFileSize]
    · constructor
      · intro h
        norm_num [maxLogFileSize] at h
      · intro h
        exact absurd h hne
  refine ⟨by omega, hc, rfl, ?_⟩
  have h := readLogFileWithPagination_eq (List.replicate 1001 "x")
    (maxLogFileSize + 1) 0 1001 hc (by norm_num)
  rw [h]
  rw [if_neg hne]
  have hs0 : (max (0 : Int) 0).toNat = 0 := by norm_num
  rw [hs0]
  rw [if_neg (show ¬ ((List.replicate 1001 "x").length ≤ 0) by rw [hlenrep]; norm_num)]
  rw [List.drop_zero]
  dsimp only
  rw [List.length_take, hlenrep]
  norm_num

/-- C9 (amended): on a file above the forced-pagination size threshold, the
default page size is applied only when the supplied page size is zero or
negative; a positive explicit page size — even one larger than the default —
is used as the per-page cap exactly as it would be on a small file. -/
theorem readLog_forced_pagination (L : List String) (size frm psz : Int)
    (hbig : maxLogFileSize < size) :
    (psz ≤ 0 → readLogFileWithPagination L size frm psz
        = readLogFileWithPagination L size frm defaultLogPageSize) ∧
    (1 ≤ psz → ∀ size2 : Int, size2 ≠ 0 →
      readLogFileWithPagination L size frm psz
        = readLogFileWithPagination L size2 frm psz) := by
  constructor
  · intro hpsz
    exact readLog_nonpos_pageSize L size frm psz hpsz
  · intro hp size2 h2
    have hsz : size ≠ 0 := by
      have hmax : (0 : Int) < maxLogFileSize := by norm_num [maxLogFileSize]
      omega
    exact readLog_size_irrelevant_pos L size size2 frm psz hsz h2 hp

/-- Witness for C9 (amended): a file above the threshold with explicit page
size 2 is read exactly like a small file, and page size 0 falls back to the
default. -/
theorem readLog_forced_pagination_witness :
    readLogFileWithPagination ["a"] (maxLogFileSize + 5) 0 2
      = readLogFileWithPagination ["a"] 3 0 2 ∧
    readLogFileWithPagination ["a"] (maxLogFileSize + 5) 0 0
      = readLogFileWithPagination ["a"] (maxLogFileSize + 5) 0 defaultLogPageSize := by
  constructor
  · exact (readLog_forced_pagination ["a"] (maxLogFileSize + 5) 0 2
      (by omega)).2 (by norm_num) 3 (by norm_num)
  · exact (readLog_forced_pagination ["a"] (maxLogFileSize + 5) 0 0
      (by omega)).1 le_rfl

/-- C1: for every task name, parameter, invocation id and handler (including
failing handlers), `executeTaskWithTrace` returns a nil error to its caller,
and its result text is `"SUCCESS"` when the handler returns nil and
`"FAIL: <error message>"` when the handler returns an error. -/
theorem executeTaskWithTrace_spec (taskName param : String) (logID : Int)
    (handler : String → Option GoError) (enableTrace : Bool) :
    (executeTaskWithTrace taskName param logID handler enableTrace).2 = none ∧
    (handler param = none →
      (executeTaskWithTrace taskName param logID handler enableTrace).1 = "SUCCESS") ∧
    (∀ e : GoError, handler param = some e →
      (executeTaskWithTrace taskName param logID handler enableTrace).1 = "FAIL: " ++ e) := by
  unfold executeTaskWithTrace
  cases h : handler param <;> simp

/-- Witness for C1 at a concrete failing handler and a concrete succeeding one. -/
theorem executeTaskWithTrace_spec_witness :
    (executeTaskWithTrace "demoTask" "p" 7 (fun _ => some "boom") false).1 = "FAIL: boom" ∧
    (executeTaskWithTrace "demoTask" "p" 7 (fun _ => none) true).1 = "SUCCESS" :=
  ⟨(executeTaskWithTrace_spec "demoTask" "p" 7 (fun _ => some "boom") false).2.2 "boom" rfl,
   (executeTaskWithTrace_spec "demoTask" "p" 7 (fun _ => none) true).2.1 rfl⟩

/-- C7: `Chain` composes middlewares with the first one outermost —
`Chain [] h = h`, `Chain (m :: ms) h = m (Chain ms h)`, and in closed form
`Chain ms h` is the right fold `m1 (m2 (... mn h))`; applying zero middlewares
through `applyMiddlewares` returns the original handler unchanged. -/
theorem Chain_spec {H : Type} (handler : H) (middlewares : List (H → H)) :
    Chain ([] : List (H → H)) handler = handler ∧
    applyMiddlewares handler ([] : List (H → H)) = handler ∧
    (∀ m : H → H, Chain (m :: middlewares) handler = m (Chain middlewares handler)) ∧
    Chain middlewares handler = middlewares.foldr (fun m acc => m acc) handler := by
  refine ⟨rfl, rfl, fun m => rfl, ?_⟩
  exact chainLoop_foldr middlewares handler

/-- C8: a handler body that panics with any value, once wrapped by
`RecoveryMiddleware`, returns normally with a non-nil error describing the
panic value (the value itself when it is an error, otherwise
`"panic: <value>"`); the caller never observes the panic. -/
theorem RecoveryMiddleware_spec (next : String → ExecOutcome) (param : String)
    (v : PanicValue) (hpanic : next param = .panicked v) :
    RecoveryMiddleware next param = .normal (some (recoveredError v)) ∧
    ∀ w : PanicValue, RecoveryMiddleware next param ≠ .panicked w := by
  constructor
  · simp [RecoveryMiddleware, hpanic]
  · intro w
    simp [RecoveryMiddleware, hpanic]

/-- Witness for C8 at a concrete panicking handler. -/
theorem RecoveryMiddleware_spec_witness :
    RecoveryMiddleware (fun _ => .panicked (.other "boom")) "p"
      = .normal (some "panic: boom") ∧
    RecoveryMiddleware (fun _ => .panicked (.err "bad state")) "p"
      = .normal (some "bad state") :=
  ⟨(RecoveryMiddleware_spec (fun _ => .panicked (.other "boom")) "p" (.other "boom") rfl).1,
   (RecoveryMiddleware_spec (fun _ => .panicked (.err "bad state")) "p" (.err "bad state") rfl).1⟩

/-- C5 (refuted, evaluating the code): the SDK callback installed by `RegTask`
never updates `lastError`, whatever the handler does — in particular a failing
handler leaves `GetHealthStatus` reporting the previous `lastError` —
because `executeTaskWithTrace` always returns a nil error, so the
`if err != nil` branch that would record it is dead code. -/
theorem regTask_lastError_never_recorded (e : ExecutorState)
    (taskName param : String) (logID : Int)
    (wrappedHandler : String → Option GoError) (enableTrace : Bool) :
    (GetHealthStatus
        (regTaskCallbackRun e taskName param logID wrappedHandler enableTrace).2).LastError
      = e.lastError := by
  unfold regTaskCallbackRun executeTaskWithTrace GetHealthStatus
  cases h : wrappedHandler param <;> simp

/-! ### Characterizing the retry loop -/

theorem range_map_double (b : Int) (n : Nat) :
    b :: (List.range n).map (fun t => b * 2 * 2 ^ t)
      = (List.range (n + 1)).map (fun t => b * 2 ^ t) := by
  rw [List.range_succ_eq_map n, List.map_cons, List.map_map]
  rw [List.cons.injEq]
  constructor
  · simp
  · refine List.map_congr_left ?_
    intro t _
    simp only [Function.comp]
    rw [pow_succ]
    ring

theorem retryGo_calls_le (next cW cA : Nat → Option GoError) :
    ∀ (remaining i : Nat) (b : Int) (lastErr : Option GoError) (calls : Nat)
      (waits : List Int),
      (retryGo next cW cA remaining i b lastErr calls waits).calls
        ≤ calls + remaining := by
  intro remaining
  induction remaining with
  | zero =>
    intro i b lastErr calls waits
    simp [retryGo]
  | succ r ih =>
    intro i b lastErr calls waits
    rw [retryGo]
    by_cases hi : 0 < i
    · rw [if_pos hi]
      cases hcw : cW i with
      | some ce => dsimp only; omega
      | none =>
        dsimp only
        cases hnx : next i with
        | none => dsimp only; omega
        | some e =>
          dsimp only
          cases hca : cA i with
          | some ce => dsimp only; omega
          | none =>
            dsimp only
            have h := ih (i + 1) (b * 2) (some e) (calls + 1) (waits ++ [b])
            omega
    · rw [if_neg hi]
      cases hnx : next i with
      | none => dsimp only; omega
      | some e =>
        dsimp only
        cases hca : cA i with
        | some ce => dsimp only; omega
        | none =>
          dsimp only
          have h := ih (i + 1) b (some e) (calls + 1) waits
          omega

theorem retryGo_all_fail (next : Nat → Option GoError) :
    ∀ (remaining i : Nat) (b : Int) (lastErr : Option GoError) (calls : Nat)
      (waits : List Int),
      1 ≤ i → 1 ≤ remaining →
      (∀ k, i ≤ k → k < i + remaining → (next k).isSome) →
      retryGo next noCancel noCancel remaining i b lastErr calls waits =
        { result := next (i + remaining - 1)
          calls := calls + remaining
          waits := waits ++ (List.range remaining).map (fun t => b * 2 ^ t) } := by
  intro remaining
  induction remaining with
  | zero =>
    intro i b lastErr calls waits _ h2 _
    exact absurd h2 (by omega)
  | succ r ih =>
    intro i b lastErr calls waits hi _ hfail
    rw [retryGo, if_pos (show 0 < i from hi)]
    have hni : (next i).isSome := hfail i le_rfl (by omega)
    cases hnx : next i with
    | none => rw [hnx] at hni; simp at hni
    | some e =>
      simp only [noCancel, hnx]
      cases r with
      | zero =>
        rw [retryGo]
        rw [show i + 1 - 1 = i from by omega, hnx]
        rw [show List.range 1 = [0] from rfl]
        simp
      | succ r2 =>
        rw [ih (i + 1) (b * 2) (some e) (calls + 1) (waits ++ [b]) (by omega)
          (by omega) (fun k hk1 hk2 => hfail k (by omega) (by omega))]
        rw [RetryOutcome.mk.injEq]
        refine ⟨?_, by omega, ?_⟩
        · rw [show i + 1 + (r2 + 1) - 1 = i + (r2 + 1 + 1) - 1 from by omega]
        · rw [List.append_assoc, List.singleton_append, range_map_double]

theorem retryGo_first_success (next : Nat → Option GoError) (j : Nat) :
    ∀ (remaining i : Nat) (b : Int) (lastErr : Option GoError) (calls : Nat)
      (waits : List Int),
      1 ≤ i → i ≤ j → j < i + remaining →
      (∀ k, i ≤ k → k < j → (next k).isSome) →
      next j = none →
      retryGo next noCancel noCancel remaining i b lastErr calls waits =
        { result := none
          calls := calls + (j - i) + 1
          waits := waits ++ (List.range (j - i + 1)).map (fun t => b * 2 ^ t) } := by
  intro remaining
  induction remaining with
  | zero =>
    intro i b lastErr calls waits _ h2 h3 _ _
    exact absurd h3 (by omega)
  | succ r ih =>
    intro i b lastErr calls waits hi hij hjr hfail hsucc
    rw [retryGo, if_pos (show 0 < i from hi)]
    simp only [noCancel]
    by_cases hji : j = i
    · subst hji
      rw [hsucc]
      rw [show j - j = 0 from by omega]
      rw [show List.range (0 + 1) = [0] from rfl]
      simp
    · have hij2 : i < j := by omega
      have hni : (next i).isSome := hfail i le_rfl hij2
      cases hnx : next i with
      | none => rw [hnx] at hni; simp at hni
      | some e =>
        simp only [hnx]
        rw [ih (i + 1) (b * 2) (some e) (calls + 1) (waits ++ [b]) (by omega)
          (by omega) (by omega) (fun k hk1 hk2 => hfail k (by omega) hk2) hsucc]
        rw [RetryOutcome.mk.injEq]
        refine ⟨rfl, by omega, ?_⟩
        rw [List.append_assoc, List.singleton_append]
        rw [show j - i + 1 = (j - (i + 1) + 1) + 1 from by omega]
        rw [range_map_double b (j - (i + 1) + 1)]

theorem retryGo_ctx_after (next ctxAfter : Nat → Option GoError) (ce : GoError)
    (tgt : Nat) :
    ∀ (remaining i : Nat) (b : Int) (lastErr : Option GoError) (calls : Nat)
      (waits : List Int),
      1 ≤ i → i ≤ tgt → tgt < i + remaining →
      (∀ k, i ≤ k → k < tgt → (next k).isSome ∧ ctxAfter k = none) →
      (next tgt).isSome → ctxAfter tgt = some ce →
      retryGo next noCancel ctxAfter remaining i b lastErr calls waits =
        { result := some ce
          calls := calls + (tgt - i) + 1
          waits := waits ++ (List.range (tgt - i + 1)).map (fun t => b * 2 ^ t) } := by
  intro remaining
  induction remaining with
  | zero =>
    intro i b lastErr calls waits _ h2 h3 _ _ _
    exact absurd h3 (by omega)
  | succ r ih =>
    intro i b lastErr calls waits hi hij hjr hpre hfail hca
    rw [retryGo, if_pos (show 0 < i from hi)]
    simp only [noCancel]
    by_cases hti : tgt = i
    · subst hti
      obtain ⟨e, he⟩ := Option.isSome_iff_exists.mp hfail
      simp only [he, hca]
      rw [show tgt - tgt = 0 from by omega]
      rw [show List.range (0 + 1) = [0] from rfl]
      simp
    · have hti2 : i < tgt := by omega
      obtain ⟨hsome, hnone⟩ := hpre i le_rfl hti2
      obtain ⟨e, he⟩ := Option.isSome_iff_exists.mp hsome
      simp only [he, hnone]
      rw [ih (i + 1) (b * 2) (some e) (calls + 1) (waits ++ [b]) (by omega)
        (by omega) (by omega) (fun k hk1 hk2 => hpre k (by omega) hk2) hfail hca]
      rw [RetryOutcome.mk.injEq]
      refine ⟨rfl, by omega, ?_⟩
      rw [List.append_assoc, List.singleton_append]
      rw [show tgt - i + 1 = (tgt - (i + 1) + 1) + 1 from by omega]
      rw [range_map_double b (tgt - (i + 1) + 1)]

/-- C6: with a never-cancelled context, `RetryMiddleware(maxRetries, backoff)`
invokes the handler at most `maxRetries + 1` times; if the first `j` attempts
fail and attempt `j` succeeds it returns nil immediately after `j + 1` calls,
having waited `backoff, 2·backoff, …, 2^(j-1)·backoff`; if every attempt
fails it makes exactly `maxRetries + 1` calls, waits
`backoff, 2·backoff, …, 2^(maxRetries-1)·backoff`, and returns the error of
the last attempt. -/
theorem RetryMiddleware_spec (n : Nat) (b : Int) (next : Nat → Option GoError) :
    (RetryMiddleware (n : Int) b next noCancel noCancel).calls ≤ n + 1 ∧
    (∀ j, j ≤ n → (∀ k, k < j → (next k).isSome) → next j = none →
      RetryMiddleware (n : Int) b next noCancel noCancel =
        { result := none
          calls := j + 1
          waits := (List.range j).map (fun t => b * 2 ^ t) }) ∧
    ((∀ k, k ≤ n → (next k).isSome) →
      RetryMiddleware (n : Int) b next noCancel noCancel =
        { result := next n
          calls := n + 1
          waits := (List.range n).map (fun t => b * 2 ^ t) }) := by
  have hfuel : ((n : Int) + 1).toNat = n + 1 := by omega
  unfold RetryMiddleware
  rw [hfuel]
  refine ⟨?_, ?_, ?_⟩
  · have h := retryGo_calls_le next noCancel noCancel (n + 1) 0 b none 0 []
    omega
  · intro j hj hfail hsucc
    rw [retryGo, if_neg (by omega : ¬ 0 < 0)]
    by_cases hj0 : j = 0
    · subst hj0
      rw [hsucc]
      simp
    · have h0 : (next 0).isSome := hfail 0 (by omega)
      cases hnx : next 0 with
      | none => rw [hnx] at h0; simp at h0
      | some e =>
        simp only [hnx, noCancel]
        rw [retryGo_first_success next j n 1 b (some e) 1 [] le_rfl (by omega)
          (by omega) (fun k _ hk2 => hfail k hk2) hsucc]
        rw [RetryOutcome.mk.injEq]
        refine ⟨rfl, by omega, ?_⟩
        rw [List.nil_append, show j - 1 + 1 = j from by omega]
  · intro hfail
    rw [retryGo, if_neg (by omega : ¬ 0 < 0)]
    have h0 : (next 0).isSome := hfail 0 (by omega)
    cases hnx : next 0 with
    | none => rw [hnx] at h0; simp at h0
    | some e =>
      simp only [hnx, noCancel]
      cases n with
      | zero =>
        rw [retryGo]
        rw [hnx]
        simp
      | succ m =>
        rw [retryGo_all_fail next (m + 1) 1 b (some e) 1 [] le_rfl (by omega)
          (fun k hk1 hk2 => hfail k (by omega))]
        rw [RetryOutcome.mk.injEq]
        refine ⟨?_, by omega, by rw [List.nil_append]⟩
        rw [show 1 + (m + 1) - 1 = m + 1 from by omega]

/-- Witness for C6: `Retry(2, 100)` around an always-failing handler makes
exactly 3 calls, waits 100 then 200, and returns the last error. -/
theorem RetryMiddleware_spec_witness :
    RetryMiddleware 2 100 (fun _ => some "boom") noCancel noCancel =
      { result := some "boom", calls := 3, waits := [100, 200] } := by
  have h := (RetryMiddleware_spec 2 100 (fun _ => some "boom")).2.2
    (fun k _ => rfl)
  rw [show ((2 : Nat) : Int) = (2 : Int) from by norm_num] at h
  rw [h]
  rw [show List.range 2 = [0, 1] from rfl]
  norm_num

/-- C10: if the first `i` attempts fail without the context being observed
cancelled, attempt `i` also fails, and `ctx.Err()` is non-nil at the check
directly after attempt `i`, then `RetryMiddleware` returns the context's
error — not the handler's — after exactly `i + 1` calls, with no further
attempt and no backoff wait after the cancelled attempt (only the `i` waits
that preceded attempts `1 … i`). -/
theorem RetryMiddleware_ctx_cancelled (n : Nat) (b : Int)
    (next ctxAfter : Nat → Option GoError) (ce : GoError) (i : Nat)
    (hi : i ≤ n)
    (hpre : ∀ k, k < i → (next k).isSome ∧ ctxAfter k = none)
    (hfail : (next i).isSome) (hca : ctxAfter i = some ce) :
    RetryMiddleware (n : Int) b next noCancel ctxAfter =
      { result := some ce
        calls := i + 1
        waits := (List.range i).map (fun t => b * 2 ^ t) } := by
  have hfuel : ((n : Int) + 1).toNat = n + 1 := by omega
  unfold RetryMiddleware
  rw [hfuel, retryGo, if_neg (by omega : ¬ 0 < 0)]
  by_cases hi0 : i = 0
  · subst hi0
    obtain ⟨e, he⟩ := Option.isSome_iff_exists.mp hfail
    simp only [he, hca]
    simp
  · obtain ⟨hsome, hnone⟩ := hpre 0 (by omega)
    obtain ⟨e, he⟩ := Option.isSome_iff_exists.mp hsome
    simp only [he, hnone]
    rw [retryGo_ctx_after next ctxAfter ce i n 1 b (some e) 1 [] le_rfl
      (by omega) (by omega) (fun k _ hk2 => hpre k hk2) hfail hca]
    rw [RetryOutcome.mk.injEq]
    refine ⟨rfl, by omega, ?_⟩
    rw [List.nil_append, show i - 1 + 1 = i from by omega]

/-- Witness for C10: with `maxRetries = 3`, a failing handler and a context
first observed cancelled after attempt 1, the run returns the context error
after exactly 2 calls and a single 100 wait. -/
theorem RetryMiddleware_ctx_cancelled_witness :
    RetryMiddleware 3 100 (fun _ => some "boom") noCancel
      (fun i => if i = 1 then some "context canceled" else none) =
      { result := some "context canceled", calls := 2, waits := [100] } := by
  have h := RetryMiddleware_ctx_cancelled 3 100 (fun _ => some "boom")
    (fun i => if i = 1 then some "context canceled" else none)
    "context canceled" 1 (by omega)
    (fun k hk => by
      interval_cases k
      exact ⟨rfl, rfl⟩)
    rfl rfl
  rw [show ((3 : Nat) : Int) = (3 : Int) from by norm_num] at h
  rw [h]
  rw [show List.range 1 = [0] from rfl]
  norm_num

end XxlJob
